import Mathlib

/-!
Verification of the ikrautas-ikrovimo-sesijos report generators.

Shallow embedding of the tariff classifier, the EU daylight-saving rule,
the interval/period reconciler, the user enrichment allowlist, the cursor
paginator with sweep deduplication, and the HTTP retry helper, as found in
`api/ampeco-transactions.js`, `api/ampeco-sessions.js` and the unnamed
near-duplicate variants.

Modelling conventions:
* UTC instants are `Nat` seconds since the Unix epoch (JS `Date` millisecond
  values divided by 1000; all timestamps handled by the program are
  post-1970).
* A missing (falsy) JS timestamp value is modelled as `none` of an
  `Option`.  A present string that `new Date(...)` cannot parse behaves
  differently in the source (formatting an Invalid Date throws a
  `RangeError`); that path is modelled separately by `RawTs`.
* Energy values (JS numbers) are modelled as rationals; IEEE-754 rounding
  is outside the model.
* The IANA zone `Europe/Vilnius` used through `Intl.DateTimeFormat` is
  modelled as UTC+02:00, switching to UTC+03:00 exactly while the EU
  summer-time rule is in effect (the tzdata rule for this zone).
-/

namespace Ikrautas

/-! ## Calendar arithmetic (the proleptic Gregorian calendar of JS `Date`) -/

/-- Gregorian leap-year test, as used by `Date.UTC`. -/
def isLeap (y : Nat) : Bool :=
  (y % 4 == 0 && y % 100 != 0) || y % 400 == 0

/-- Number of days in month `m` (1-12) of year `y`. -/
def daysInMonth (y m : Nat) : Nat :=
  if m = 2 then (if isLeap y then 29 else 28)
  else if m = 4 ∨ m = 6 ∨ m = 9 ∨ m = 11 then 30
  else 31

/-- Day count of the first day of month `m` inside a year that starts on
March 1 (the standard shifted-year encoding of civil-date arithmetic). -/
def doyFromMar (m : Nat) : Nat :=
  (153 * (if m > 2 then m - 3 else m + 9) + 2) / 5

/-- Days elapsed since 0000-03-01 at civil date `(y, m, d)` (1-based month
and day).  This is the day-number arithmetic implicit in `Date.UTC`. -/
def rataDie (y m d : Nat) : Nat :=
  let y' := if m ≤ 2 then y - 1 else y
  let era := y' / 400
  let yoe := y' % 400
  era * 146097 + yoe * 365 + yoe / 4 - yoe / 100 + doyFromMar m + (d - 1)

/-- Days since the Unix epoch of the civil date `(y, m, d)` (valid for
dates at or after 1970-01-01; `rataDie 1970 1 1 = 719468`). -/
def epochDays (y m d : Nat) : Nat :=
  rataDie y m d - 719468

/-- UTC seconds since the epoch of `(y, m, d)` at 00:00:00 UTC. -/
def utcCivilSecs (y m d : Nat) : Nat :=
  epochDays y m d * 86400

/-- Day of week of civil date `(y, m, d)`, `0 = Sunday` .. `6 = Saturday`,
as returned by JS `getUTCDay` (1970-01-01 is a Thursday). -/
def dowOfCivil (y m d : Nat) : Nat :=
  (rataDie y m d + 3) % 7

/-- Civil date `(y, m, d)` in UTC of the day that is `z` days after the
Unix epoch (inverse of `epochDays`). -/
def civilFromDays (z : Nat) : Nat × Nat × Nat :=
  let z' := z + 719468
  let era := z' / 146097
  let doe := z' % 146097
  let yoe := (doe - doe / 1460 + doe / 36524 - doe / 146096) / 365
  let y := yoe + era * 400
  let doy := doe - (365 * yoe + yoe / 4 - yoe / 100)
  let mp := (5 * doy + 2) / 153
  let d := doy - (153 * mp + 2) / 5 + 1
  let m := if mp < 10 then mp + 3 else mp - 9
  (if m ≤ 2 then y + 1 else y, m, d)

/-- `getUTCFullYear` of an epoch-seconds instant. -/
def utcYear (t : Nat) : Nat :=
  (civilFromDays (t / 86400)).1

/-! ## EU daylight-saving rule (`isSummerTimeEU`, `lastSundayOfMonthUTC`) -/

/-- `lastSundayOfMonthUTC` of `api/ampeco-transactions.js`: take the last
day of the month and step back by its `getUTCDay`, yielding the day of
month of the last Sunday. -/
def lastSundayDayUTC (y m : Nat) : Nat :=
  let ld := daysInMonth y m
  ld - dowOfCivil y m ld

/-- `isSummerTimeEU` of `api/ampeco-transactions.js`: true from 01:00 UTC
on the last Sunday of March (inclusive) until 01:00 UTC on the last
Sunday of October (exclusive) of the UTC year of the instant. -/
def isSummerTimeEU (t : Nat) : Bool :=
  let y := utcYear t
  let dstStart := utcCivilSecs y 3 (lastSundayDayUTC y 3) + 3600
  let dstEnd := utcCivilSecs y 10 (lastSundayDayUTC y 10) + 3600
  decide (dstStart ≤ t) && decide (t < dstEnd)

/-! ## Tariff classifier (`tarifas`, `vilniusParts`, `weekdayNum`) -/

/-- UTC offset of Europe/Vilnius in seconds at instant `t` (tzdata model:
+03:00 during EU summer time, +02:00 otherwise).  This models the offset
that `Intl.DateTimeFormat` with `timeZone: "Europe/Vilnius"` reports. -/
def vilniusOffsetSecs (t : Nat) : Nat :=
  if isSummerTimeEU t then 3 * 3600 else 2 * 3600

/-- Local Vilnius wall-clock expressed as seconds since the epoch. -/
def localSecsVilnius (t : Nat) : Nat :=
  t + vilniusOffsetSecs t

/-- Local Vilnius weekday in the `weekdayNum` encoding of the source
(`Mon = 1` .. `Sun = 7`). -/
def localWeekdayVilnius (t : Nat) : Nat :=
  let w := (localSecsVilnius t / 86400 + 4) % 7
  if w = 0 then 7 else w

/-- Local Vilnius minute-of-day (`hh * 60 + mm` of `vilniusParts`). -/
def localMinuteVilnius (t : Nat) : Nat :=
  localSecsVilnius t % 86400 / 60

/-- `tarifas` of `api/ampeco-transactions.js` (lines 688-702): weekends are
`"Naktinis"`; weekdays are `"Dieninis"` inside the seasonal day window
(`[08:00, 24:00)` local under summer time, `[07:00, 23:00)` under winter
time) and `"Naktinis"` otherwise. -/
def tarifas (t : Nat) : String :=
  let wd := localWeekdayVilnius t
  if wd = 6 ∨ wd = 7 then "Naktinis"
  else
    let mins := localMinuteVilnius t
    let summer := isSummerTimeEU t
    let dayStart := (if summer then 8 else 7) * 60
    let dayEnd := (if summer then 24 else 23) * 60
    if dayStart ≤ mins ∧ mins < dayEnd then "Dieninis" else "Naktinis"

/-- `isSummerTimeVilnius` of the unnamed session variants detects summer
time by formatting the instant in Europe/Vilnius and comparing the offset
string to `"+03:00"`; under the tzdata model of `vilniusOffsetSecs` this
coincides with the EU rule. -/
def isSummerTimeVilnius (t : Nat) : Bool :=
  vilniusOffsetSecs t == 3 * 3600

/-- `tarifasFromVilniusTime` of the unnamed session variants, restricted
to the inputs on which it returns: a missing (falsy) timestamp yields
`""` via the early guard; a parsed instant gets the same
weekend/day-window classification (the variant caps the day window at
minute 1440 via `Math.min`).  A present-but-unparseable timestamp makes
the source throw a `RangeError` instead; that path is modelled by
`tarifasFromVilniusTimeT` below. -/
def tarifasFromVilniusTime : Option Nat → String
  | none => ""
  | some t =>
    let wd := localWeekdayVilnius t
    if wd = 6 ∨ wd = 7 then "Naktinis"
    else
      let mins := localMinuteVilnius t
      let summer := isSummerTimeVilnius t
      let dayStart := (if summer then 8 else 7) * 60
      let dayEnd := (if summer then 24 else 23) * 60
      if dayStart ≤ mins ∧ mins < min dayEnd 1440 then "Dieninis" else "Naktinis"

end Ikrautas

namespace Ikrautas

/-! ## Properties of the calendar arithmetic -/

theorem daysInMonth_ge (y m : Nat) : 28 ≤ daysInMonth y m := by
  unfold daysInMonth
  split_ifs <;> omega

theorem daysInMonth_le (y m : Nat) : daysInMonth y m ≤ 31 := by
  unfold daysInMonth
  split_ifs <;> omega

theorem rataDie_linear (y m d : Nat) :
    rataDie y m d = rataDie y m 1 + (d - 1) := by
  unfold rataDie
  by_cases hm : m ≤ 2 <;> simp only [hm, if_true, if_false] <;> omega

/-- Declarative characterization of "the last Sunday of month `m` of year
`y`": a valid day of the month that falls on a Sunday such that no later
day of the month is a Sunday.  (Months have at most 31 days, so the
quantifier is bounded by 32.) -/
def IsLastSundayOf (y m d : Nat) : Prop :=
  1 ≤ d ∧ d ≤ daysInMonth y m ∧ dowOfCivil y m d = 0 ∧
    ∀ e < 32, d < e → e ≤ daysInMonth y m → dowOfCivil y m e ≠ 0

instance (y m d : Nat) : Decidable (IsLastSundayOf y m d) := by
  unfold IsLastSundayOf
  infer_instance

theorem dowOfCivil_linear (y m d : Nat) :
    dowOfCivil y m d = (rataDie y m 1 + 3 + (d - 1)) % 7 := by
  unfold dowOfCivil
  rw [rataDie_linear y m d]
  omega

/-- The day-of-month arithmetic of `lastSundayOfMonthUTC` (step back from
the last day of the month by its day-of-week) does compute the last
Sunday of the month. -/
theorem lastSunday_isLastSunday (y m : Nat) :
    IsLastSundayOf y m (lastSundayDayUTC y m) := by
  have h28 : 28 ≤ daysInMonth y m := daysInMonth_ge y m
  have hld : lastSundayDayUTC y m
      = daysInMonth y m - (rataDie y m 1 + 3 + (daysInMonth y m - 1)) % 7 := by
    show daysInMonth y m - dowOfCivil y m (daysInMonth y m) = _
    rw [dowOfCivil_linear y m (daysInMonth y m)]
  set B := rataDie y m 1 with hB
  set L := daysInMonth y m with hL
  set w := (B + 3 + (L - 1)) % 7 with hw
  have hw7 : w < 7 := Nat.mod_lt _ (by omega)
  refine ⟨by omega, by omega, ?_, ?_⟩
  · rw [hld, dowOfCivil_linear y m (L - w)]
    omega
  · intro e _ he1 he2
    rw [hld] at he1
    rw [dowOfCivil_linear y m e]
    omega

theorem isLastSunday_unique (y m d1 d2 : Nat)
    (h1 : IsLastSundayOf y m d1) (h2 : IsLastSundayOf y m d2) : d1 = d2 := by
  obtain ⟨a1, b1, c1, f1⟩ := h1
  obtain ⟨a2, b2, c2, f2⟩ := h2
  have hle : daysInMonth y m ≤ 31 := daysInMonth_le y m
  rcases Nat.lt_or_ge d1 d2 with h | h
  · exact absurd c2 (f1 d2 (by omega) h b2)
  · rcases Nat.lt_or_ge d2 d1 with h' | h'
    · exact absurd c1 (f2 d1 (by omega) h' b1)
    · omega

/-- C2: the daylight-saving predicate `isSummerTimeEU` holds at an instant
`t` exactly when `t` is at or after 01:00 UTC on the last Sunday of March
of the UTC year of `t` and strictly before 01:00 UTC on the last Sunday of
October of that year (inclusive start, exclusive end). -/
theorem isSummerTimeEU_lastSunday_spec (t dMar dOct : Nat)
    (hM : IsLastSundayOf (utcYear t) 3 dMar)
    (hO : IsLastSundayOf (utcYear t) 10 dOct) :
    isSummerTimeEU t = true ↔
      (utcCivilSecs (utcYear t) 3 dMar + 3600 ≤ t ∧
       t < utcCivilSecs (utcYear t) 10 dOct + 3600) := by
  have e1 : dMar = lastSundayDayUTC (utcYear t) 3 :=
    isLastSunday_unique _ _ _ _ hM (lastSunday_isLastSunday (utcYear t) 3)
  have e2 : dOct = lastSundayDayUTC (utcYear t) 10 :=
    isLastSunday_unique _ _ _ _ hO (lastSunday_isLastSunday (utcYear t) 10)
  subst e1
  subst e2
  simp [isSummerTimeEU]

theorem isSummerTimeEU_lastSunday_spec_witness :
    IsLastSundayOf (utcYear 1750000000) 3 30 ∧
    IsLastSundayOf (utcYear 1750000000) 10 26 ∧
    (isSummerTimeEU 1750000000 = true ↔
      (utcCivilSecs (utcYear 1750000000) 3 30 + 3600 ≤ 1750000000 ∧
       1750000000 < utcCivilSecs (utcYear 1750000000) 10 26 + 3600)) :=
  ⟨by decide, by decide,
    isSummerTimeEU_lastSunday_spec 1750000000 30 26 (by decide) (by decide)⟩

/-- C1: `tarifas` returns `"Naktinis"` on every local-Vilnius weekend
instant; on weekdays it returns `"Dieninis"` exactly when the local
minute-of-day lies in `[08:00, 24:00)` under summer time or `[07:00,
23:00)` under winter time, and `"Naktinis"` otherwise. -/
theorem tarifas_day_window_spec (t : Nat) :
    (tarifas t = "Dieninis" ↔
      (localWeekdayVilnius t ≠ 6 ∧ localWeekdayVilnius t ≠ 7 ∧
        ((isSummerTimeEU t = true ∧
            480 ≤ localMinuteVilnius t ∧ localMinuteVilnius t < 1440) ∨
         (isSummerTimeEU t = false ∧
            420 ≤ localMinuteVilnius t ∧ localMinuteVilnius t < 1380)))) ∧
    (tarifas t = "Naktinis" ↔
      ¬(localWeekdayVilnius t ≠ 6 ∧ localWeekdayVilnius t ≠ 7 ∧
        ((isSummerTimeEU t = true ∧
            480 ≤ localMinuteVilnius t ∧ localMinuteVilnius t < 1440) ∨
         (isSummerTimeEU t = false ∧
            420 ≤ localMinuteVilnius t ∧ localMinuteVilnius t < 1380)))) := by
  have hmin : localMinuteVilnius t < 1440 := by
    unfold localMinuteVilnius
    omega
  unfold tarifas
  by_cases hs : isSummerTimeEU t <;>
    simp only [hs, if_true, if_false] <;>
    split_ifs with h1 h2 <;>
    simp_all <;>
    omega

end Ikrautas

namespace Ikrautas

/-! ## Reconciler data model (`extractDetailRowsForStation` and friends)

Sessions as normalized by `normalizeSessionsForN8n`: resolved fields only.
A `Period.startedAt` of `none` models a charging period whose `startedAt`
is missing (falsy); likewise for clock-aligned samples.  A present but
unparseable timestamp string is modelled separately by the `RawTs`
refinement further below, because the source does not merely skip its
window filter on such a value — formatting it throws.  Energy fields of
`none` model a `safeNum` result of `null`. -/

structure Period where
  id : String
  startedAt : Option Nat
  stoppedAt : Option Nat
  energyWh : Option ℚ
deriving DecidableEq

structure ClockSample where
  start : Option Nat
  stop : Option Nat
  energyWh : Option ℚ
deriving DecidableEq

structure SessionN where
  sessionId : String
  chargingPeriods : List Period
  clockAligned : List ClockSample
deriving DecidableEq

/-- `inRange` of the unnamed session variant (lines 898-902): false if any
argument is null, otherwise the half-open test `start ≤ t < end`. -/
def inRange : Option Nat → Option Nat → Option Nat → Bool
  | some t, some s, some e => decide (s ≤ t) && decide (t < e)
  | _, _, _ => false

/-- The `continue` condition guarding row emission in
`extractDetailRowsForStation`: skip a record exactly when the window
bounds and the parsed start of the record are all present and the start is not
in range. -/
def skipOutOfRange (startD endD dStart : Option Nat) : Bool :=
  startD.isSome && endD.isSome && dStart.isSome && !inRange dStart startD endD

/-- The window slice applied to clock-aligned samples in the transactions
variant (`start < windowStart || start >= windowEnd` skips the sample). -/
def clockSliceKeep (windowStart windowEnd t : Nat) : Bool :=
  !(decide (t < windowStart) || decide (windowEnd ≤ t))

/-- `Number((x).toFixed(6))`, modelled as exact decimal rounding to six
places (IEEE-754 effects are outside the model). -/
def round6 (q : ℚ) : ℚ :=
  (round (q * 1000000) : ℤ) / 1000000

/-- Two-digit zero padding (`String(n).padStart(2, "0")`). -/
def pad2 (n : Nat) : String :=
  if n < 10 then "0" ++ toString n else toString n

/-- `toVilniusIsoWithOffset`, restricted to the inputs on which it
returns: the empty string for a missing (falsy) timestamp, otherwise the
local Vilnius wall-clock rendered as `YYYY-MM-DDTHH:MM:SS` followed by
the `+02:00`/`+03:00` offset.  A present-but-unparseable timestamp makes
the source throw a `RangeError` inside `vilniusParts`; that path is
modelled by `toVilniusIsoWithOffsetT` below. -/
def toVilniusIsoWithOffset : Option Nat → String
  | none => ""
  | some t =>
    let off := if isSummerTimeVilnius t then "+03:00" else "+02:00"
    let loc := localSecsVilnius t
    let c := civilFromDays (loc / 86400)
    let s := loc % 86400
    toString c.1 ++ "-" ++ pad2 c.2.1 ++ "-" ++ pad2 c.2.2 ++ "T" ++
      pad2 (s / 3600) ++ ":" ++ pad2 (s % 3600 / 60) ++ ":" ++ pad2 (s % 60) ++ off

/-- One row of a station detail table (columns `id`, `energy_kwh`,
`startedAt`, `stoppedAt`, `tarifas`); `energyKwh = none` models the empty
cell emitted when the energy is null. -/
structure DetailRow where
  id : String
  energyKwh : Option ℚ
  startedAt : String
  stoppedAt : String
  tarifas : String
deriving DecidableEq

/-- Processing of one charging period in the `chargingPeriods` branch of
`extractDetailRowsForStation` (lines 936-964): `none` when the record is
skipped by the window filter, otherwise the emitted detail row. -/
def periodRow (startD endD : Option Nat) (p : Period) : Option DetailRow :=
  if skipOutOfRange startD endD p.startedAt then none
  else some
    { id := p.id
      energyKwh := p.energyWh.map (fun e => round6 (e / 1000))
      startedAt := toVilniusIsoWithOffset p.startedAt
      stoppedAt := toVilniusIsoWithOffset p.stoppedAt
      tarifas := tarifasFromVilniusTime p.startedAt }

/-- Processing of the clock-aligned fallback branch of
`extractDetailRowsForStation` (lines 973-1003): the synthetic row id is
`sessionId_idx` (or `row_idx` for an empty session id) where `idx` counts
emitted rows only. -/
def clockRows (startD endD : Option Nat) (sessionId : String) :
    List ClockSample → Nat → List DetailRow
  | [], _ => []
  | c :: rest, idx =>
    if skipOutOfRange startD endD c.start then
      clockRows startD endD sessionId rest idx
    else
      { id := if sessionId ≠ "" then sessionId ++ "_" ++ toString (idx + 1)
              else "row_" ++ toString (idx + 1)
        energyKwh := c.energyWh.map (fun e => round6 (e / 1000))
        startedAt := toVilniusIsoWithOffset c.start
        stoppedAt := toVilniusIsoWithOffset c.stop
        tarifas := tarifasFromVilniusTime c.start } ::
        clockRows startD endD sessionId rest (idx + 1)

/-- Detail rows contributed by one session: charging periods are preferred
when present, otherwise the clock-aligned samples are used. -/
def sessionRows (startD endD : Option Nat) (s : SessionN) : List DetailRow :=
  if s.chargingPeriods ≠ [] then s.chargingPeriods.filterMap (periodRow startD endD)
  else clockRows startD endD s.sessionId s.clockAligned 0

/-- `extractDetailRowsForStation` restricted to its `rows` output: all
sessions of a station processed in order. -/
def extractDetailRows (startD endD : Option Nat) (sessions : List SessionN) :
    List DetailRow :=
  sessions.flatMap (sessionRows startD endD)

/-- The source increments `rowsCount` exactly once per pushed row, so the
returned `rowsCount` is the length of `rows`. -/
def extractRowCount (startD endD : Option Nat) (sessions : List SessionN) : Nat :=
  (extractDetailRows startD endD sessions).length

/-- The placeholder row pushed when a station detail table would be
empty: the `"NO SESSIONS"` sentinel with every other field empty. -/
def noSessionsRow : DetailRow :=
  { id := "", energyKwh := none, startedAt := "", stoppedAt := ""
    tarifas := "NO SESSIONS" }

/-- The `detailRows` fallback of `makeExcel` (lines 1079-1090): the
extracted rows, or the single placeholder row when there are none. -/
def detailRowsWithFallback (rows : List DetailRow) : List DetailRow :=
  if rows = [] then [noSessionsRow] else rows

/-- Detail rows of one station sheet in `makeExcel`. -/
def makeExcelStationRows (startD endD : Option Nat) (sessions : List SessionN) :
    List DetailRow :=
  detailRowsWithFallback (extractDetailRows startD endD sessions)

/-- The row array built by `makeExcelPeriodsOnly` (lines 341-369) before
its fallback check: every charging period becomes a row (no window filter
in this variant; `Number(p?.energy ?? 0)` is modelled by defaulting a
missing energy to 0). -/
def makeExcelPeriodsOnlyRawRows (sessions : List SessionN) : List DetailRow :=
  sessions.flatMap (fun s => s.chargingPeriods.map (fun p =>
    { id := p.id
      energyKwh := some (round6 (p.energyWh.getD 0 / 1000))
      startedAt := toVilniusIsoWithOffset p.startedAt
      stoppedAt := toVilniusIsoWithOffset p.stoppedAt
      tarifas := tarifasFromVilniusTime p.startedAt }))

/-- Detail rows of one station sheet in `makeExcelPeriodsOnly`, with the
placeholder fallback for an empty row array. -/
def makeExcelPeriodsOnlyRows (sessions : List SessionN) : List DetailRow :=
  if makeExcelPeriodsOnlyRawRows sessions = [] then [noSessionsRow]
  else makeExcelPeriodsOnlyRawRows sessions

/-! ## User/transaction enrichment (the `requireInvoice` allowlist) -/

/-- A JavaScript value as far as the strict comparison
`requireInvoice !== false` can observe it. -/
inductive JsVal where
  | vBool : Bool → JsVal
  | vNull : JsVal
  | vUndefined : JsVal
  | vNum : Int → JsVal
  | vStr : String → JsVal
deriving DecidableEq

/-- The per-user invoice-details record; `requireInvoice = vUndefined`
models a record without that field. -/
structure InvoiceDetails where
  requireInvoice : JsVal
deriving DecidableEq

/-- `invoiceDetails?.requireInvoice`: a failed fetch caches `null`, and
optional chaining on `null` yields `undefined`. -/
def requireInvoiceOf : Option InvoiceDetails → JsVal
  | none => JsVal.vUndefined
  | some d => d.requireInvoice

/-- The allowlist decision of the user task (`ampeco-transactions.js`
lines 237-240 and the `requireInvoice !== false` filter of the unnamed
variant): a user is allowed exactly when the strict comparison against
`false` succeeds. -/
def userAllowed (fetched : Option InvoiceDetails) : Bool :=
  match requireInvoiceOf fetched with
  | JsVal.vBool false => true
  | _ => false

/-- A filtered transaction, reduced to the field the allowlist consults. -/
structure Tx where
  userId : String
  amount : ℚ
deriving DecidableEq

/-- Step 4 of the transactions handler: keep the filtered transactions
whose user is in the allowlist, where `fetchRes` gives the (cached)
invoice-details fetch outcome per user id. -/
def finalTransactions (filtered : List Tx)
    (fetchRes : String → Option InvoiceDetails) : List Tx :=
  filtered.filter (fun t => userAllowed (fetchRes t.userId))

end Ikrautas

namespace Ikrautas

/-! ## Window filter, placeholder and bypass properties -/

/-- A station with a single charging period starting at `t`. -/
def periodOnlySession (t : Nat) : SessionN :=
  { sessionId := "s"
    chargingPeriods := [{ id := "p", startedAt := some t, stoppedAt := none, energyWh := none }]
    clockAligned := [] }

/-- A station with a single clock-aligned sample starting at `t`. -/
def clockOnlySession (t : Nat) : SessionN :=
  { sessionId := "s"
    chargingPeriods := []
    clockAligned := [{ start := some t, stop := none, energyWh := none }] }

/-- C3: a charging period or clock-aligned sample with a parsed start
timestamp is kept by the reconciler exactly when the start lies in the
half-open window `[windowStart, windowEnd)`; a record starting exactly at
`windowStart` is included and one starting exactly at `windowEnd` is
excluded, in both the `extractDetailRowsForStation` filter and the
transactions-variant clock slice. -/
theorem window_halfOpen_spec (ws we t : Nat) (hlt : ws < we) :
    (skipOutOfRange (some ws) (some we) (some t) = false ↔ (ws ≤ t ∧ t < we))
    ∧ (clockSliceKeep ws we t = true ↔ (ws ≤ t ∧ t < we))
    ∧ skipOutOfRange (some ws) (some we) (some ws) = false
    ∧ skipOutOfRange (some ws) (some we) (some we) = true
    ∧ clockSliceKeep ws we ws = true
    ∧ clockSliceKeep ws we we = false
    ∧ (sessionRows (some ws) (some we) (periodOnlySession t) ≠ [] ↔ (ws ≤ t ∧ t < we))
    ∧ (sessionRows (some ws) (some we) (clockOnlySession t) ≠ [] ↔ (ws ≤ t ∧ t < we)) := by
  refine ⟨?_, ?_, ?_, ?_, ?_, ?_, ?_, ?_⟩ <;>
    simp [skipOutOfRange, inRange, clockSliceKeep, sessionRows, periodOnlySession,
      clockOnlySession, periodRow, clockRows] <;>
    omega

theorem window_halfOpen_spec_witness :
    (skipOutOfRange (some 10) (some 20) (some 15) = false ↔ (10 ≤ 15 ∧ 15 < 20))
    ∧ (clockSliceKeep 10 20 15 = true ↔ (10 ≤ 15 ∧ 15 < 20))
    ∧ skipOutOfRange (some 10) (some 20) (some 10) = false
    ∧ skipOutOfRange (some 10) (some 20) (some 20) = true
    ∧ clockSliceKeep 10 20 10 = true
    ∧ clockSliceKeep 10 20 20 = false
    ∧ (sessionRows (some 10) (some 20) (periodOnlySession 15) ≠ [] ↔ (10 ≤ 15 ∧ 15 < 20))
    ∧ (sessionRows (some 10) (some 20) (clockOnlySession 15) ≠ [] ↔ (10 ≤ 15 ∧ 15 < 20)) :=
  window_halfOpen_spec 10 20 15 (by decide)

theorem flatMap_periods_map_nil (f : Period → DetailRow) (ss : List SessionN)
    (h : ∀ s ∈ ss, s.chargingPeriods = []) :
    (ss.flatMap fun s => s.chargingPeriods.map f) = [] := by
  induction ss with
  | nil => rfl
  | cons a l ih =>
    have ha : a.chargingPeriods = [] := h a (by simp)
    simp [ha, ih fun s hs => h s (by simp [hs])]

theorem rawRows_nil (ss : List SessionN) (h : ∀ s ∈ ss, s.chargingPeriods = []) :
    makeExcelPeriodsOnlyRawRows ss = [] := by
  unfold makeExcelPeriodsOnlyRawRows
  exact flatMap_periods_map_nil _ ss h

/-- C4: when the reconciler yields zero detail rows for a station, the
sheet gets exactly the single `"NO SESSIONS"` placeholder row with every
other field empty, and a station detail table is never empty (in either
spreadsheet builder). -/
theorem noSessions_placeholder_spec (startD endD : Option Nat)
    (sessions : List SessionN)
    (h : extractDetailRows startD endD sessions = []) :
    makeExcelStationRows startD endD sessions = [noSessionsRow]
    ∧ (makeExcelStationRows startD endD sessions).length = 1
    ∧ noSessionsRow.tarifas = "NO SESSIONS"
    ∧ noSessionsRow.id = "" ∧ noSessionsRow.energyKwh = none
    ∧ noSessionsRow.startedAt = "" ∧ noSessionsRow.stoppedAt = ""
    ∧ (∀ sd ed ss, makeExcelStationRows sd ed ss ≠ [])
    ∧ (∀ ss, makeExcelPeriodsOnlyRows ss ≠ [])
    ∧ (∀ ss, (∀ s ∈ ss, s.chargingPeriods = []) →
        makeExcelPeriodsOnlyRows ss = [noSessionsRow]) := by
  refine ⟨?_, ?_, rfl, rfl, rfl, rfl, rfl, ?_, ?_, ?_⟩
  · simp [makeExcelStationRows, detailRowsWithFallback, h]
  · simp [makeExcelStationRows, detailRowsWithFallback, h]
  · intro sd ed ss
    unfold makeExcelStationRows detailRowsWithFallback
    split_ifs with hr
    · simp
    · exact hr
  · intro ss
    unfold makeExcelPeriodsOnlyRows
    split_ifs with hr
    · simp
    · exact hr
  · intro ss hss
    unfold makeExcelPeriodsOnlyRows
    rw [rawRows_nil ss hss]
    simp

theorem noSessions_placeholder_spec_witness :
    makeExcelStationRows none none [] = [noSessionsRow]
    ∧ (makeExcelStationRows none none []).length = 1
    ∧ noSessionsRow.tarifas = "NO SESSIONS"
    ∧ noSessionsRow.id = "" ∧ noSessionsRow.energyKwh = none
    ∧ noSessionsRow.startedAt = "" ∧ noSessionsRow.stoppedAt = ""
    ∧ (∀ sd ed ss, makeExcelStationRows sd ed ss ≠ [])
    ∧ (∀ ss, makeExcelPeriodsOnlyRows ss ≠ [])
    ∧ (∀ ss, (∀ s ∈ ss, s.chargingPeriods = []) →
        makeExcelPeriodsOnlyRows ss = [noSessionsRow]) :=
  noSessions_placeholder_spec none none [] rfl

/-- C5: a user of a filtered transaction survives into the final output
exactly when the fetched invoice-details record exists and its
`requireInvoice` field is strictly the boolean `false`; a failed fetch
(cached `null`), a missing field, and any other value all exclude the
user. -/
theorem requireInvoice_allowlist_spec (fetched : Option InvoiceDetails)
    (filtered : List Tx) (fetchRes : String → Option InvoiceDetails) (t : Tx) :
    (userAllowed fetched = true ↔
      ∃ d, fetched = some d ∧ d.requireInvoice = JsVal.vBool false)
    ∧ userAllowed none = false
    ∧ userAllowed (some { requireInvoice := JsVal.vUndefined }) = false
    ∧ userAllowed (some { requireInvoice := JsVal.vNull }) = false
    ∧ userAllowed (some { requireInvoice := JsVal.vBool true }) = false
    ∧ (t ∈ finalTransactions filtered fetchRes ↔
        t ∈ filtered ∧ userAllowed (fetchRes t.userId) = true) := by
  refine ⟨?_, rfl, rfl, rfl, rfl, ?_⟩
  · cases fetched with
    | none => simp [userAllowed, requireInvoiceOf]
    | some d =>
      cases hd : d.requireInvoice with
      | vBool b => cases b <;> simp [userAllowed, requireInvoiceOf, hd]
      | _ => simp [userAllowed, requireInvoiceOf, hd]
  · simp [finalTransactions, List.mem_filter]

/-! ## Refined timestamp model distinguishing missing from unparseable

`parseDateSafe` (lines 892-896) returns `null` both for a falsy input and
for a present string `new Date` cannot parse, so both bypass the window
filter.  The two cases then diverge: the falsy input is turned into `""`
by the early guards of `tarifasFromVilniusTime` and
`toVilniusIsoWithOffset`, while the truthy unparseable one reaches
`Intl.DateTimeFormat` formatting of an Invalid Date, which throws a
`RangeError` that aborts the whole extraction (the handler answers 500):
no row is pushed and `rowsCount` is not incremented. -/

/-- A raw timestamp field as `extractDetailRowsForStation` receives it:
absent/falsy, present but unparseable (an Invalid Date), or parsed. -/
inductive RawTs where
  | missing : RawTs
  | invalid : RawTs
  | valid : Nat → RawTs
deriving DecidableEq

/-- `parseDateSafe` (lines 892-896): `null` for a falsy input and for an
unparseable string, the parsed date otherwise. -/
def parseDateSafe : RawTs → Option Nat
  | RawTs.missing => none
  | RawTs.invalid => none
  | RawTs.valid t => some t

/-- The RangeError thrown by `Intl.DateTimeFormat` on an Invalid Date. -/
def rangeErrorMsg : String := "RangeError: Invalid time value"

/-- `tarifasFromVilniusTime` on a raw field, including the throwing path:
a falsy input returns `""`, an Invalid Date throws inside
`weekdayVilnius`, a parsed date is classified. -/
def tarifasFromVilniusTimeT : RawTs → Except String String
  | RawTs.missing => Except.ok ""
  | RawTs.invalid => Except.error rangeErrorMsg
  | RawTs.valid t => Except.ok (tarifasFromVilniusTime (some t))

/-- `toVilniusIsoWithOffset` on a raw field, including the throwing path:
a falsy input returns `""`, an Invalid Date throws inside
`vilniusParts`, a parsed date is rendered. -/
def toVilniusIsoWithOffsetT : RawTs → Except String String
  | RawTs.missing => Except.ok ""
  | RawTs.invalid => Except.error rangeErrorMsg
  | RawTs.valid t => Except.ok (toVilniusIsoWithOffset (some t))

/-- A charging period with raw timestamp fields. -/
structure PeriodT where
  id : String
  startedAt : RawTs
  stoppedAt : RawTs
  energyWh : Option ℚ
deriving DecidableEq

/-- A clock-aligned sample with raw timestamp fields. -/
structure ClockSampleT where
  start : RawTs
  stop : RawTs
  energyWh : Option ℚ
deriving DecidableEq

/-- Processing of one charging period (lines 936-963) over raw fields:
`ok none` when the window filter skips the record, `ok (some row)` when a
row is pushed and counted, `error` when the source throws — it evaluates
`tarifasFromVilniusTime started` first (line 948), then renders both
timestamps in the pushed row (lines 960-961). -/
def periodRowT (startD endD : Option Nat) (p : PeriodT) :
    Except String (Option DetailRow) :=
  if skipOutOfRange startD endD (parseDateSafe p.startedAt) then Except.ok none
  else
    match tarifasFromVilniusTimeT p.startedAt with
    | Except.error e => Except.error e
    | Except.ok tf =>
      match toVilniusIsoWithOffsetT p.startedAt with
      | Except.error e => Except.error e
      | Except.ok sa =>
        match toVilniusIsoWithOffsetT p.stoppedAt with
        | Except.error e => Except.error e
        | Except.ok so =>
          Except.ok (some
            { id := p.id
              energyKwh := p.energyWh.map (fun w => round6 (w / 1000))
              startedAt := sa
              stoppedAt := so
              tarifas := tf })

/-- Processing of one clock-aligned sample (lines 975-1001) over raw
fields, for the emitted-row ordinal `idx` (the source computes the
tariff at line 984 before counting and pushing). -/
def clockSampleRowT (startD endD : Option Nat) (sessionId : String)
    (idx : Nat) (c : ClockSampleT) : Except String (Option DetailRow) :=
  if skipOutOfRange startD endD (parseDateSafe c.start) then Except.ok none
  else
    match tarifasFromVilniusTimeT c.start with
    | Except.error e => Except.error e
    | Except.ok tf =>
      match toVilniusIsoWithOffsetT c.start with
      | Except.error e => Except.error e
      | Except.ok sa =>
        match toVilniusIsoWithOffsetT c.stop with
        | Except.error e => Except.error e
        | Except.ok so =>
          Except.ok (some
            { id := if sessionId ≠ "" then sessionId ++ "_" ++ toString (idx + 1)
                    else "row_" ++ toString (idx + 1)
              energyKwh := c.energyWh.map (fun w => round6 (w / 1000))
              startedAt := sa
              stoppedAt := so
              tarifas := tf })

/-- The rows (and hence the row count) contributed by a list of charging
periods under the raw model: an exception thrown for any period aborts
the whole extraction. -/
def periodRowsT (startD endD : Option Nat) :
    List PeriodT → Except String (List DetailRow)
  | [] => Except.ok []
  | p :: rest =>
    match periodRowT startD endD p with
    | Except.error e => Except.error e
    | Except.ok none => periodRowsT startD endD rest
    | Except.ok (some row) =>
      match periodRowsT startD endD rest with
      | Except.error e => Except.error e
      | Except.ok rs => Except.ok (row :: rs)

/-- A period with a present-but-unparseable start. -/
def periodInvalidStart : PeriodT :=
  { id := "p", startedAt := RawTs.invalid, stoppedAt := RawTs.missing
    energyWh := none }

/-- C10 counterexample: a charging period whose start timestamp is
present but unparseable does bypass the reporting-window filter, yet it
is not emitted as a detail row and not counted — the extraction aborts
with the `RangeError` thrown while formatting the Invalid Date. -/
theorem unparseableStart_counterexample :
    skipOutOfRange (some 0) (some 10)
        (parseDateSafe periodInvalidStart.startedAt) = false
    ∧ periodRowT (some 0) (some 10) periodInvalidStart
        = Except.error rangeErrorMsg
    ∧ periodRowsT (some 0) (some 10) [periodInvalidStart]
        = Except.error rangeErrorMsg
    ∧ ¬ ∃ r, periodRowT (some 0) (some 10) periodInvalidStart
        = Except.ok (some r) := by
  refine ⟨rfl, rfl, rfl, ?_⟩
  rintro ⟨r, hr⟩
  rw [show periodRowT (some 0) (some 10) periodInvalidStart
      = Except.error rangeErrorMsg from rfl] at hr
  exact Except.noConfusion hr

/-- C10 (amended): a charging period or clock-aligned sample whose start
timestamp is missing (falsy) bypasses the reporting-window filter for
every window and is still emitted as a detail row with an empty
formatted start timestamp and an empty tariff label (and an empty stop
timestamp when the stop is also missing), counted in the row count; a
record whose start timestamp is present but unparseable also bypasses
the filter, but the extraction then throws a `RangeError` while
formatting the Invalid Date, so no row is emitted and nothing is
counted. -/
theorem startField_bypass_spec (ws we : Nat) (p : PeriodT)
    (hp : p.startedAt = RawTs.missing) (hps : p.stoppedAt = RawTs.missing)
    (sid : String) (idx : Nat) (c : ClockSampleT)
    (hc : c.start = RawTs.missing) (hcs : c.stop = RawTs.missing)
    (q : PeriodT) (hq : q.startedAt = RawTs.invalid)
    (d : ClockSampleT) (hd : d.start = RawTs.invalid) :
    skipOutOfRange (some ws) (some we) (parseDateSafe p.startedAt) = false
    ∧ (∃ r, periodRowT (some ws) (some we) p = Except.ok (some r)
        ∧ r.startedAt = "" ∧ r.tarifas = "" ∧ r.stoppedAt = "")
    ∧ (∃ r, periodRowsT (some ws) (some we) [p] = Except.ok [r])
    ∧ (∃ r, clockSampleRowT (some ws) (some we) sid idx c = Except.ok (some r)
        ∧ r.startedAt = "" ∧ r.tarifas = "")
    ∧ skipOutOfRange (some ws) (some we) (parseDateSafe q.startedAt) = false
    ∧ periodRowT (some ws) (some we) q = Except.error rangeErrorMsg
    ∧ periodRowsT (some ws) (some we) [q] = Except.error rangeErrorMsg
    ∧ clockSampleRowT (some ws) (some we) sid idx d = Except.error rangeErrorMsg := by
  have hrowP : periodRowT (some ws) (some we) p
      = Except.ok (some
          { id := p.id
            energyKwh := p.energyWh.map (fun w => round6 (w / 1000))
            startedAt := ""
            stoppedAt := ""
            tarifas := "" }) := by
    simp [periodRowT, skipOutOfRange, parseDateSafe, hp, hps,
      tarifasFromVilniusTimeT, toVilniusIsoWithOffsetT]
  have herrQ : periodRowT (some ws) (some we) q = Except.error rangeErrorMsg := by
    simp [periodRowT, skipOutOfRange, parseDateSafe, hq, tarifasFromVilniusTimeT]
  refine ⟨?_, ?_, ?_, ?_, ?_, herrQ, ?_, ?_⟩
  · simp [skipOutOfRange, parseDateSafe, hp]
  · exact ⟨_, hrowP, rfl, rfl, rfl⟩
  · refine ⟨{ id := p.id
              energyKwh := p.energyWh.map (fun w => round6 (w / 1000))
              startedAt := ""
              stoppedAt := ""
              tarifas := "" }, ?_⟩
    simp [periodRowsT, hrowP]
  · refine ⟨{ id := if sid ≠ "" then sid ++ "_" ++ toString (idx + 1)
                    else "row_" ++ toString (idx + 1)
              energyKwh := c.energyWh.map (fun w => round6 (w / 1000))
              startedAt := ""
              stoppedAt := ""
              tarifas := "" }, ?_, rfl, rfl⟩
    simp [clockSampleRowT, skipOutOfRange, parseDateSafe, hc, hcs,
      tarifasFromVilniusTimeT, toVilniusIsoWithOffsetT]
  · simp [skipOutOfRange, parseDateSafe, hq]
  · simp [periodRowsT, herrQ]
  · simp [clockSampleRowT, skipOutOfRange, parseDateSafe, hd,
      tarifasFromVilniusTimeT]

/-- The concrete records used in the witness below. -/
def periodMissingStart : PeriodT :=
  { id := "p", startedAt := RawTs.missing, stoppedAt := RawTs.missing
    energyWh := none }

def sampleMissingStart : ClockSampleT :=
  { start := RawTs.missing, stop := RawTs.missing, energyWh := none }

def sampleInvalidStart : ClockSampleT :=
  { start := RawTs.invalid, stop := RawTs.missing, energyWh := none }

theorem startField_bypass_spec_witness :
    skipOutOfRange (some 0) (some 10)
        (parseDateSafe periodMissingStart.startedAt) = false
    ∧ (∃ r, periodRowT (some 0) (some 10) periodMissingStart = Except.ok (some r)
        ∧ r.startedAt = "" ∧ r.tarifas = "" ∧ r.stoppedAt = "")
    ∧ (∃ r, periodRowsT (some 0) (some 10) [periodMissingStart] = Except.ok [r])
    ∧ (∃ r, clockSampleRowT (some 0) (some 10) "s" 0 sampleMissingStart
          = Except.ok (some r)
        ∧ r.startedAt = "" ∧ r.tarifas = "")
    ∧ skipOutOfRange (some 0) (some 10)
        (parseDateSafe periodInvalidStart.startedAt) = false
    ∧ periodRowT (some 0) (some 10) periodInvalidStart
        = Except.error rangeErrorMsg
    ∧ periodRowsT (some 0) (some 10) [periodInvalidStart]
        = Except.error rangeErrorMsg
    ∧ clockSampleRowT (some 0) (some 10) "s" 0 sampleInvalidStart
        = Except.error rangeErrorMsg :=
  startField_bypass_spec 0 10 periodMissingStart rfl rfl "s" 0
    sampleMissingStart rfl rfl periodInvalidStart rfl sampleInvalidStart rfl

end Ikrautas

namespace Ikrautas

/-! ## Cursor paginator with sweep deduplication (transactions handler) -/

/-- A transaction record as far as the paginator observes it: its id (or
`none` when absent, in which case the record is skipped) and an abstract
payload standing for the remaining fields. -/
structure TxRec where
  id : Option String
  val : Nat
deriving DecidableEq

/-- One page of an upstream response: the `data` rows and the resolved
next-page URL (`links.next` after `normalizeNextUrl`), `none` when
pagination ends. -/
structure TxPage where
  rows : List TxRec
  next : Option String
deriving DecidableEq

/-- `byId.has(key)` on the accumulator, modelled as an insertion-ordered
association list. -/
def hasKey (m : List (String × TxRec)) (k : String) : Bool :=
  m.any (fun kv => kv.1 == k)

/-- The row-merge loop of the sweep (`ampeco-transactions.js` lines
139-148): a row without an id is skipped, an id already present is
discarded, a new id is appended, and the loop breaks once the accumulator
reaches `maxItems`.  Returns the new accumulator and the number of rows
added. -/
def addRows (m : List (String × TxRec)) (rows : List TxRec) (maxItems : Nat) :
    List (String × TxRec) × Nat :=
  match rows with
  | [] => (m, 0)
  | r :: rest =>
    match r.id with
    | none => addRows m rest maxItems
    | some k =>
      if hasKey m k then addRows m rest maxItems
      else
        if maxItems ≤ (m ++ [(k, r)]).length then (m ++ [(k, r)], 1)
        else
          let p := addRows (m ++ [(k, r)]) rest maxItems
          (p.1, p.2 + 1)

/-- One sweep pass (the inner `while` of lines 125-158): follow `nextUrl`
while below the page and item caps, breaking on a previously seen URL.
The page counter already bounds the iteration count, so calling with
`fuel = maxPages` is exact; `fuel` only makes the recursion structural. -/
def passLoop (up : String → TxPage) (mp mi : Nat) :
    Nat → Option String → Nat → List String → List (String × TxRec) → Nat →
    List (String × TxRec) × Nat
  | _, none, _, _, m, added => (m, added)
  | 0, some _, _, _, m, added => (m, added)
  | fuel + 1, some u, pf, seen, m, added =>
    if pf < mp ∧ m.length < mi then
      if u ∈ seen then (m, added)
      else
        let p := addRows m (up u).rows mi
        passLoop up mp mi fuel (up u).next (pf + 1) (u :: seen) p.1 (added + p.2)
    else (m, added)

/-- The sweep driver (lines 117-172): up to `sweepPasses` passes, each
re-walking pagination from the first URL into the shared accumulator; a
pass that adds zero new ids ends the sweep early.  Also returns the
`addedThisPass` statistics of the executed passes. -/
def sweepLoop (up : String → TxPage) (firstUrl : String) (mp mi : Nat) :
    Nat → List (String × TxRec) → List Nat → List (String × TxRec) × List Nat
  | 0, m, stats => (m, stats)
  | pl + 1, m, stats =>
    let p := passLoop up mp mi mp (some firstUrl) 0 [] m 0
    if p.2 = 0 then (p.1, stats ++ [p.2])
    else sweepLoop up firstUrl mp mi pl p.1 (stats ++ [p.2])

/-- The whole fetch-all phase of the transactions handler. -/
def fetchAllSweep (up : String → TxPage) (firstUrl : String)
    (mp mi sweepPasses : Nat) : List (String × TxRec) × List Nat :=
  sweepLoop up firstUrl mp mi sweepPasses [] []

theorem hasKey_iff_mem (m : List (String × TxRec)) (k : String) :
    hasKey m k = true ↔ k ∈ m.map Prod.fst := by
  simp [hasKey, List.any_eq_true, List.mem_map]

theorem hasKey_append (m1 m2 : List (String × TxRec)) (k : String) :
    hasKey (m1 ++ m2) k = (hasKey m1 k || hasKey m2 k) := by
  simp [hasKey, List.any_append]

theorem addRows_ext (mi : Nat) :
    ∀ (rows : List TxRec) (m : List (String × TxRec)),
    ∃ ext, (addRows m rows mi).1 = m ++ ext
      ∧ ∀ e ∈ ext, hasKey m e.1 = false := by
  intro rows
  induction rows with
  | nil => exact fun m => ⟨[], by simp [addRows]⟩
  | cons r rest ih =>
    intro m
    match hid : r.id with
    | none =>
      obtain ⟨ext, h1, h2⟩ := ih m
      exact ⟨ext, by simp [addRows, hid, h1], h2⟩
    | some k =>
      by_cases hk : hasKey m k
      · obtain ⟨ext, h1, h2⟩ := ih m
        exact ⟨ext, by simp [addRows, hid, hk, h1], h2⟩
      · by_cases hcap : mi ≤ m.length + 1
        · refine ⟨[(k, r)], by simp [addRows, hid, hk, hcap], ?_⟩
          intro e he
          simp at he
          subst he
          simpa using hk
        · obtain ⟨ext, h1, h2⟩ := ih (m ++ [(k, r)])
          refine ⟨(k, r) :: ext, ?_, ?_⟩
          · simp [addRows, hid, hk, hcap, h1]
          · intro e he
            rcases List.mem_cons.mp he with he1 | he2
            · subst he1
              simpa using hk
            · have := h2 e he2
              rw [hasKey_append] at this
              exact (Bool.or_eq_false_iff.mp this).1

theorem addRows_nodup (mi : Nat) :
    ∀ (rows : List TxRec) (m : List (String × TxRec)),
    ((m.map Prod.fst).Nodup) → (((addRows m rows mi).1.map Prod.fst).Nodup) := by
  intro rows
  induction rows with
  | nil => intro m hm; simpa [addRows] using hm
  | cons r rest ih =>
    intro m hm
    match hid : r.id with
    | none => simpa [addRows, hid] using ih m hm
    | some k =>
      by_cases hk : hasKey m k
      · simpa [addRows, hid, hk] using ih m hm
      · have hk' : k ∉ m.map Prod.fst := fun hmem =>
          hk ((hasKey_iff_mem m k).mpr hmem)
        have hm' : ((m ++ [(k, r)]).map Prod.fst).Nodup := by
          simp [List.nodup_append, hm, hk']
        by_cases hcap : mi ≤ m.length + 1
        · simpa [addRows, hid, hk, hcap] using hm'
        · have := ih (m ++ [(k, r)]) hm'
          simpa [addRows, hid, hk, hcap] using this

theorem passLoop_ext (up : String → TxPage) (mp mi : Nat) :
    ∀ (fuel : Nat) (cursor : Option String) (pf : Nat) (seen : List String)
      (m : List (String × TxRec)) (added : Nat),
    ∃ ext, (passLoop up mp mi fuel cursor pf seen m added).1 = m ++ ext
      ∧ ∀ e ∈ ext, hasKey m e.1 = false := by
  intro fuel
  induction fuel with
  | zero =>
    intro cursor pf seen m added
    cases cursor <;> exact ⟨[], by simp [passLoop], by simp⟩
  | succ fuel ih =>
    intro cursor pf seen m added
    cases cursor with
    | none => exact ⟨[], by simp [passLoop], by simp⟩
    | some u =>
      by_cases hg : pf < mp ∧ m.length < mi
      · by_cases hs : u ∈ seen
        · exact ⟨[], by simp [passLoop, hg, hs], by simp⟩
        · obtain ⟨ext1, ha1, ha2⟩ := addRows_ext mi (up u).rows m
          obtain ⟨ext2, hb1, hb2⟩ := ih (up u).next (pf + 1) (u :: seen)
            (addRows m (up u).rows mi).1 (added + (addRows m (up u).rows mi).2)
          refine ⟨ext1 ++ ext2, ?_, ?_⟩
          · show (passLoop up mp mi (fuel + 1) (some u) pf seen m added).1 = _
            simp only [passLoop]
            rw [if_pos hg, if_neg hs]
            rw [hb1, ha1, List.append_assoc]
          · intro e he
            rcases List.mem_append.mp he with he1 | he2
            · exact ha2 e he1
            · have := hb2 e he2
              rw [ha1, hasKey_append] at this
              exact (Bool.or_eq_false_iff.mp this).1
      · exact ⟨[], by simp [passLoop, hg], by simp⟩

theorem passLoop_nodup (up : String → TxPage) (mp mi : Nat) :
    ∀ (fuel : Nat) (cursor : Option String) (pf : Nat) (seen : List String)
      (m : List (String × TxRec)) (added : Nat),
    ((m.map Prod.fst).Nodup) →
    (((passLoop up mp mi fuel cursor pf seen m added).1.map Prod.fst).Nodup) := by
  intro fuel
  induction fuel with
  | zero =>
    intro cursor pf seen m added hm
    cases cursor <;> simpa [passLoop] using hm
  | succ fuel ih =>
    intro cursor pf seen m added hm
    cases cursor with
    | none => simpa [passLoop] using hm
    | some u =>
      by_cases hg : pf < mp ∧ m.length < mi
      · by_cases hs : u ∈ seen
        · simpa [passLoop, hg, hs] using hm
        · have h1 := addRows_nodup mi (up u).rows m hm
          have := ih (up u).next (pf + 1) (u :: seen)
            (addRows m (up u).rows mi).1 (added + (addRows m (up u).rows mi).2) h1
          simpa [passLoop, hg, hs] using this
      · simpa [passLoop, hg] using hm

theorem sweepLoop_nodup (up : String → TxPage) (firstUrl : String) (mp mi : Nat) :
    ∀ (pl : Nat) (m : List (String × TxRec)) (stats : List Nat),
    ((m.map Prod.fst).Nodup) →
    (((sweepLoop up firstUrl mp mi pl m stats).1.map Prod.fst).Nodup) := by
  intro pl
  induction pl with
  | zero => intro m stats hm; simpa [sweepLoop] using hm
  | succ pl ih =>
    intro m stats hm
    have h1 := passLoop_nodup up mp mi mp (some firstUrl) 0 [] m 0 hm
    by_cases hz : (passLoop up mp mi mp (some firstUrl) 0 [] m 0).2 = 0
    · simpa [sweepLoop, hz] using h1
    · have := ih (passLoop up mp mi mp (some firstUrl) 0 [] m 0).1
        (stats ++ [(passLoop up mp mi mp (some firstUrl) 0 [] m 0).2]) h1
      simpa [sweepLoop, hz] using this

theorem mem_of_mem_dropLast {α : Type} (l : List α) (a : α)
    (h : a ∈ l.dropLast) : a ∈ l := by
  induction l with
  | nil => simp at h
  | cons x xs ih =>
    cases xs with
    | nil => simp at h
    | cons y ys =>
      rcases List.mem_cons.mp h with h1 | h2
      · simp [h1]
      · exact List.mem_cons_of_mem x (ih h2)

theorem sweepLoop_stats (up : String → TxPage) (firstUrl : String) (mp mi : Nat) :
    ∀ (pl : Nat) (m : List (String × TxRec)) (stats : List Nat),
    0 ∉ stats →
    (0 ∉ (sweepLoop up firstUrl mp mi pl m stats).2.dropLast
      ∧ (sweepLoop up firstUrl mp mi pl m stats).2.length ≤ stats.length + pl) := by
  intro pl
  induction pl with
  | zero =>
    intro m stats hstats
    constructor
    · intro h
      simp only [sweepLoop] at h
      exact hstats (mem_of_mem_dropLast _ _ h)
    · simp [sweepLoop]
  | succ pl ih =>
    intro m stats hstats
    by_cases hz : (passLoop up mp mi mp (some firstUrl) 0 [] m 0).2 = 0
    · constructor
      · simp only [sweepLoop, hz, if_true]
        rw [List.dropLast_concat]
        exact hstats
      · simp [sweepLoop, hz]
    · have hstats' : 0 ∉ stats ++ [(passLoop up mp mi mp (some firstUrl) 0 [] m 0).2] := by
        simp [List.mem_append, hstats]
        omega
      have := ih (passLoop up mp mi mp (some firstUrl) 0 [] m 0).1
        (stats ++ [(passLoop up mp mi mp (some firstUrl) 0 [] m 0).2]) hstats'
      refine ⟨?_, ?_⟩
      · simpa [sweepLoop, hz] using this.1
      · have h2 := this.2
        simp only [List.length_append, List.length_cons, List.length_nil] at h2
        simp only [sweepLoop, hz, Bool.false_eq_true, if_false]
        omega

/-- C6: across all sweep passes the accumulator keyed by record id holds
each id at most once; every merge step only appends entries whose ids are
not yet present (so the first-seen record for an id is retained and later
duplicates are discarded); and only the last executed pass can have added
zero new ids (a zero-adding pass stops the sweep), with at most
`sweepPasses` passes executed. -/
theorem sweep_dedup_spec (up : String → TxPage) (firstUrl : String)
    (mp mi sp : Nat) :
    (((fetchAllSweep up firstUrl mp mi sp).1.map Prod.fst).Nodup)
    ∧ (∀ m rows, ∃ ext, (addRows m rows mi).1 = m ++ ext
        ∧ ∀ e ∈ ext, hasKey m e.1 = false)
    ∧ 0 ∉ (fetchAllSweep up firstUrl mp mi sp).2.dropLast
    ∧ (fetchAllSweep up firstUrl mp mi sp).2.length ≤ sp := by
  refine ⟨?_, ?_, ?_, ?_⟩
  · exact sweepLoop_nodup up firstUrl mp mi sp [] [] (by simp)
  · intro m rows
    exact addRows_ext mi rows m
  · exact (sweepLoop_stats up firstUrl mp mi sp [] [] (by simp)).1
  · have := (sweepLoop_stats up firstUrl mp mi sp [] [] (by simp)).2
    simpa using this

end Ikrautas

namespace Ikrautas

/-! ## Plain cursor paginator (the no-sweep transactions variant) -/

/-- The pagination loop of the plain transactions variant (unnamed file,
lines 57-74): the upstream dataset is modelled as the chain of `data`
arrays the server serves, each page linking to the next via `links.next`
(the list ends where the link is absent).  The loop counts pages and
stops when the link is absent or a cap is reached. -/
def fetchLoop : List (List TxRec) → Nat → List TxRec → Nat → Nat →
    List TxRec × Nat
  | [], pf, all, _, _ => (all, pf)
  | pg :: rest, pf, all, mp, mi =>
    if pf < mp ∧ all.length < mi then fetchLoop rest (pf + 1) (all ++ pg) mp mi
    else (all, pf)

/-- The `data` and `truncated` fields of the response (lines 75-86): rows
capped at `maxItems`, and `truncated = all.length > maxItems`. -/
def handlerResult (pages : List (List TxRec)) (mp mi : Nat) :
    List TxRec × Bool :=
  ((fetchLoop pages 0 [] mp mi).1.take mi,
    decide (mi < (fetchLoop pages 0 [] mp mi).1.length))

theorem fetchLoop_complete (mp mi : Nat) :
    ∀ (pages : List (List TxRec)) (pf : Nat) (all : List TxRec),
    pf + pages.length ≤ mp → all.length + pages.flatten.length ≤ mi →
    (fetchLoop pages pf all mp mi).1 = all ++ pages.flatten := by
  intro pages
  induction pages with
  | nil => intro pf all _ _; simp [fetchLoop]
  | cons pg rest ih =>
    intro pf all h1 h2
    simp only [List.length_cons] at h1
    have hflat : (List.flatten (pg :: rest)).length
        = pg.length + rest.flatten.length := by
      simp only [List.flatten_cons, List.length_append]
    by_cases hall : all.length < mi
    · have hg : pf < mp ∧ all.length < mi := ⟨by omega, hall⟩
      rw [fetchLoop, if_pos hg]
      rw [ih (pf + 1) (all ++ pg) (by omega)
        (by simp only [List.length_append]; omega)]
      simp
    · have hnil : pg = [] ∧ rest.flatten = [] := by
        constructor <;> [skip; skip] <;>
          · have : pg.length = 0 ∧ rest.flatten.length = 0 := by omega
            first
            | exact List.length_eq_zero.mp this.1
            | exact List.length_eq_zero.mp this.2
      have hg : ¬(pf < mp ∧ all.length < mi) := fun hx => hall hx.2
      rw [fetchLoop, if_neg hg]
      simp [hnil.1, hnil.2]

theorem fetchLoop_le (mp mi : Nat) :
    ∀ (pages : List (List TxRec)) (pf : Nat) (all : List TxRec),
    (fetchLoop pages pf all mp mi).1.length ≤ all.length + pages.flatten.length := by
  intro pages
  induction pages with
  | nil => intro pf all; simp [fetchLoop]
  | cons pg rest ih =>
    intro pf all
    by_cases hg : pf < mp ∧ all.length < mi
    · rw [fetchLoop, if_pos hg]
      have := ih (pf + 1) (all ++ pg)
      simp only [List.length_append] at this
      simp only [List.flatten_cons, List.length_append]
      omega
    · rw [fetchLoop, if_neg hg]
      simp

/-- The two-page, one-record-per-page upstream of the counterexample. -/
def cexPages : List (List TxRec) :=
  [[{ id := some "a", val := 1 }], [{ id := some "b", val := 2 }]]

/-- C7 counterexample: an upstream of N = 2 records split across 2 pages
with `perPage = 1`, `maxPages = 2` (so `perPage * maxPages ≥ N`) and
`maxItems = 1 < N`.  The handler stops once the accumulated rows reach
`maxItems` without overshooting, returns 1 record instead of N, and
reports `truncated = false` although `maxItems < N`. -/
theorem paginator_claim_counterexample :
    ¬ ((handlerResult cexPages 2 1).1.length = cexPages.flatten.length
       ∧ ((handlerResult cexPages 2 1).2 = true ↔ 1 < cexPages.flatten.length)) := by
  decide

/-- C7 (amended): for a finite, non-mutating upstream of N records split
across pages of `perPage` records (last page shorter but non-empty) with
`perPage * maxPages ≥ N` and additionally `maxItems ≥ N`, the paginator
returns exactly the N records and reports `truncated = false`; conversely
`truncated = true` is reported only when `maxItems < N`. -/
theorem paginator_complete_spec (pages : List (List TxRec))
    (perPage mp mi : Nat)
    (hpp : 1 ≤ perPage) (hmp : 1 ≤ mp)
    (hfull : ∀ pg ∈ pages.dropLast, pg.length = perPage)
    (hne : [] ∉ pages)
    (hcap : pages.flatten.length ≤ perPage * mp)
    (hmi : pages.flatten.length ≤ mi) :
    (handlerResult pages mp mi).1 = pages.flatten
    ∧ (handlerResult pages mp mi).1.length = pages.flatten.length
    ∧ (handlerResult pages mp mi).2 = false
    ∧ (∀ pages' mp' mi', (handlerResult pages' mp' mi').2 = true →
        mi' < pages'.flatten.length) := by
  have hlen : pages.length ≤ mp := by
    rcases List.eq_nil_or_concat pages with hnil | ⟨front, last, hsplit⟩
    · simp [hnil]
    · have hlast : last ≠ [] := by
        intro hl
        apply hne
        rw [hsplit, hl]
        simp
      have hfront : ∀ pg ∈ front, pg.length = perPage := by
        intro pg hpg
        apply hfull
        rw [hsplit, List.concat_eq_append, List.dropLast_concat]
        exact hpg
      have hmapeq : front.map List.length
          = List.replicate (front.map List.length).length perPage := by
        apply List.eq_replicate_of_mem
        intro b hb
        rcases List.mem_map.mp hb with ⟨pg, hpg, hlb⟩
        rw [← hlb]
        exact hfront pg hpg
      have hfrontlen : (front.map List.length).sum = perPage * front.length := by
        rw [hmapeq, List.sum_replicate, smul_eq_mul, List.length_map, Nat.mul_comm]
      have hlastlen : 1 ≤ last.length := by
        cases last with
        | nil => exact absurd rfl hlast
        | cons a l => simp
      have hflat : pages.flatten.length = perPage * front.length + last.length := by
        rw [hsplit]
        simp [List.length_flatten, hfrontlen]
      have hmul : perPage * front.length < perPage * mp := by omega
      have hfl : front.length < mp := Nat.lt_of_mul_lt_mul_left hmul
      rw [hsplit]
      simp
      omega
  have hall : (fetchLoop pages 0 [] mp mi).1 = pages.flatten := by
    have := fetchLoop_complete mp mi pages 0 [] (by omega)
      (by simpa using hmi)
    simpa using this
  have hnotr : ¬ mi < (fetchLoop pages 0 [] mp mi).1.length := by
    rw [hall]
    omega
  refine ⟨?_, ?_, ?_, ?_⟩
  · simp [handlerResult, hall, List.take_of_length_le hmi]
  · simp [handlerResult, hall, List.take_of_length_le hmi]
  · simp only [handlerResult]
    exact decide_eq_false hnotr
  · intro pages' mp' mi' htr
    simp only [handlerResult, decide_eq_true_eq] at htr
    have := fetchLoop_le mp' mi' pages' 0 []
    simp only [List.length_nil, Nat.zero_add] at this
    omega

theorem paginator_complete_spec_witness :
    (handlerResult cexPages 2 2).1 = cexPages.flatten
    ∧ (handlerResult cexPages 2 2).1.length = cexPages.flatten.length
    ∧ (handlerResult cexPages 2 2).2 = false
    ∧ (∀ pages' mp' mi', (handlerResult pages' mp' mi').2 = true →
        mi' < pages'.flatten.length) :=
  paginator_complete_spec cexPages 1 2 2 (by decide) (by decide) (by decide)
    (by decide) (by decide) (by decide)

end Ikrautas

namespace Ikrautas

/-! ## HTTP client with retry (`fetchJson` variants) -/

/-- One HTTP response as the client observes it: status, status text, the
body text, and `json = some v` exactly when `JSON.parse(text)` succeeds
(the parsed payload is abstracted to a number). -/
structure HttpResp where
  status : Nat
  statusText : String
  body : String
  json : Option Nat
deriving DecidableEq

/-- `r.ok` of the Fetch API: status in 200-299. -/
def isOkStatus (s : Nat) : Bool :=
  decide (200 ≤ s) && decide (s ≤ 299)

/-- The retryable statuses: 429 or 500-599. -/
def retryableStatus (s : Nat) : Bool :=
  (s == 429) || (decide (500 ≤ s) && decide (s ≤ 599))

/-- The error message thrown on a non-ok response (body truncated to 500
characters, as `text.slice(0, 500)`). -/
def httpErrMsg (r : HttpResp) : String :=
  "HTTP " ++ toString r.status ++ " " ++ r.statusText ++ ": " ++ r.body.take 500

/-- The error message thrown for a non-JSON body on an ok response. -/
def nonJsonErrMsg (r : HttpResp) : String :=
  "Non-JSON response: " ++ r.body.take 500

/-- Outcome of one attempt of the retrying `fetchJson`
(`api/ampeco-transactions.js` lines 578-615): `some` is a final result
(success or thrown error) and `none` means "sleep and retry".  An ok
status parses the body or throws the non-JSON error; a retryable status
retries unless this is the final attempt (`attempt === 4`); any other
status throws immediately. -/
def attemptOutcome (r : HttpResp) (isFinalAttempt : Bool) :
    Option (Except String Nat) :=
  if isOkStatus r.status then
    some (match r.json with
          | some v => Except.ok v
          | none => Except.error (nonJsonErrMsg r))
  else if retryableStatus r.status && !isFinalAttempt then none
  else some (Except.error (httpErrMsg r))

/-- The retrying `fetchJson` over the sequence of per-attempt responses
(the source loop `for attempt = 1..4` unrolled), returning the outcome
and the number of attempts performed.  The final `none` branch mirrors
the `"Unexpected fetchJson fallthrough"` throw after the loop, which is
unreachable because attempt 4 never asks for a retry. -/
def fetchJson (resp : Nat → HttpResp) : Except String Nat × Nat :=
  match attemptOutcome (resp 1) false with
  | some e => (e, 1)
  | none =>
    match attemptOutcome (resp 2) false with
    | some e => (e, 2)
    | none =>
      match attemptOutcome (resp 3) false with
      | some e => (e, 3)
      | none =>
        match attemptOutcome (resp 4) true with
        | some e => (e, 4)
        | none => (Except.error "Unexpected fetchJson fallthrough", 4)

/-- The single-attempt `fetchJson` of the plain paginator variant
(unnamed file, lines 111-139): one request, no retry loop; a non-ok
status or a non-JSON body throws immediately. -/
def fetchJsonSingle (resp : Nat → HttpResp) : Except String Nat × Nat :=
  if isOkStatus (resp 1).status then
    (match (resp 1).json with
     | some v => (Except.ok v, 1)
     | none => (Except.error (nonJsonErrMsg (resp 1)), 1))
  else (Except.error (httpErrMsg (resp 1)), 1)

theorem ok_not_retryable (s : Nat) (h : isOkStatus s = true) :
    retryableStatus s = false := by
  simp [isOkStatus] at h
  simp [retryableStatus]
  omega

theorem attemptOutcome_none_iff (r : HttpResp) (b : Bool) :
    attemptOutcome r b = none ↔
      (isOkStatus r.status = false ∧ retryableStatus r.status = true ∧ b = false) := by
  unfold attemptOutcome
  split_ifs with h1 h2
  · simp [h1]
  · simp at h1
    simp [h1]
    simp at h2
    exact h2
  · simp at h1 h2
    simp [h1]
    intro hret
    simp [hret] at h2
    simp [h2]

theorem attemptOutcome_ok (r : HttpResp) (b : Bool) (h : isOkStatus r.status = true) :
    attemptOutcome r b = some (match r.json with
      | some v => Except.ok v
      | none => Except.error (nonJsonErrMsg r)) := by
  unfold attemptOutcome
  rw [if_pos h]

theorem attemptOutcome_notOk (r : HttpResp) (b : Bool) (e : Except String Nat)
    (hok : isOkStatus r.status = false) (h : attemptOutcome r b = some e) :
    e = Except.error (httpErrMsg r) := by
  unfold attemptOutcome at h
  rw [if_neg (by simp [hok])] at h
  split_ifs at h
  exact (Option.some_inj.mp h).symm

/-- A 429 response on every attempt. -/
def resp429 : Nat → HttpResp :=
  fun _ => { status := 429, statusText := "Too Many Requests",
             body := "slow down", json := none }

/-- C8 counterexample: the single-attempt `fetchJson` variant cited by the
claim performs exactly one attempt on a 429 response and never retries,
although 429 is a retryable status. -/
theorem fetchJson_retry_counterexample :
    retryableStatus (resp429 1).status = true
    ∧ (fetchJsonSingle resp429).2 = 1
    ∧ ¬ 2 ≤ (fetchJsonSingle resp429).2 := by
  decide

end Ikrautas

namespace Ikrautas

theorem retryable_not_ok (s : Nat) (h : retryableStatus s = true) :
    isOkStatus s = false := by
  simp [retryableStatus] at h
  simp [isOkStatus]
  omega

/-- C8 (amended): the retrying `fetchJson` performs between 1 and 4
attempts; every attempt it retried had status 429 or 5xx, and it stops
before attempt 4 only on a non-retryable response; a non-ok final
response fails immediately with the truncated body in the message, a
non-JSON body on an ok response fails immediately with the truncated
body, and when all four attempts are retryable it fails with the last
error observed.  The single-attempt variant cited by the claim performs
exactly one attempt and fails immediately on any non-ok status. -/
theorem fetchJson_retry_spec (resp : Nat → HttpResp) :
    1 ≤ (fetchJson resp).2
    ∧ (fetchJson resp).2 ≤ 4
    ∧ (∀ j, 1 ≤ j → j < (fetchJson resp).2 → retryableStatus (resp j).status = true)
    ∧ ((fetchJson resp).2 < 4 → retryableStatus (resp (fetchJson resp).2).status = false)
    ∧ (isOkStatus (resp (fetchJson resp).2).status = false →
        (fetchJson resp).1 = Except.error (httpErrMsg (resp (fetchJson resp).2)))
    ∧ (∀ v, isOkStatus (resp (fetchJson resp).2).status = true →
        (resp (fetchJson resp).2).json = some v →
        (fetchJson resp).1 = Except.ok v)
    ∧ (isOkStatus (resp (fetchJson resp).2).status = true →
        (resp (fetchJson resp).2).json = none →
        (fetchJson resp).1 = Except.error (nonJsonErrMsg (resp (fetchJson resp).2)))
    ∧ ((∀ j, 1 ≤ j → j ≤ 4 → retryableStatus (resp j).status = true) →
        ((fetchJson resp).2 = 4
          ∧ (fetchJson resp).1 = Except.error (httpErrMsg (resp 4))))
    ∧ (∀ resp2 : Nat → HttpResp, (fetchJsonSingle resp2).2 = 1
        ∧ (isOkStatus (resp2 1).status = false →
            (fetchJsonSingle resp2).1 = Except.error (httpErrMsg (resp2 1)))) := by
  have hsingle : ∀ resp2 : Nat → HttpResp, (fetchJsonSingle resp2).2 = 1
      ∧ (isOkStatus (resp2 1).status = false →
          (fetchJsonSingle resp2).1 = Except.error (httpErrMsg (resp2 1))) := by
    intro resp2
    constructor
    · unfold fetchJsonSingle
      split_ifs
      · cases (resp2 1).json <;> rfl
      · rfl
    · intro hok
      unfold fetchJsonSingle
      rw [if_neg (by simp [hok])]
  rcases h1 : attemptOutcome (resp 1) false with _ | e1
  case some =>
    have hres : fetchJson resp = (e1, 1) := by simp [fetchJson, h1]
    refine ⟨by simp [hres], by simp [hres], ?_, ?_, ?_, ?_, ?_, ?_, hsingle⟩
    · intro j hj1 hj2
      rw [hres] at hj2
      omega
    · intro _
      rw [hres]
      by_cases hok : isOkStatus (resp 1).status = true
      · exact ok_not_retryable _ hok
      · simp only [Bool.not_eq_true] at hok
        by_contra hr
        simp only [Bool.not_eq_false] at hr
        rw [(attemptOutcome_none_iff (resp 1) false).mpr ⟨hok, hr, rfl⟩] at h1
        simp at h1
    · intro hok
      rw [hres] at hok ⊢
      have := attemptOutcome_notOk (resp 1) false e1 hok h1
      simp [this]
    · intro v hok hj
      rw [hres] at hok hj ⊢
      have := attemptOutcome_ok (resp 1) false hok
      rw [h1, hj] at this
      simpa using (Option.some_inj.mp this)
    · intro hok hj
      rw [hres] at hok hj ⊢
      have := attemptOutcome_ok (resp 1) false hok
      rw [h1, hj] at this
      simpa using (Option.some_inj.mp this)
    · intro hall
      have hr1 := hall 1 (by omega) (by omega)
      have hok1 := retryable_not_ok _ hr1
      rw [(attemptOutcome_none_iff (resp 1) false).mpr ⟨hok1, hr1, rfl⟩] at h1
      simp at h1
  case none =>
    have hr1 := ((attemptOutcome_none_iff (resp 1) false).mp h1).2.1
    rcases h2 : attemptOutcome (resp 2) false with _ | e2
    case some =>
      have hres : fetchJson resp = (e2, 2) := by simp [fetchJson, h1, h2]
      refine ⟨by simp [hres], by simp [hres], ?_, ?_, ?_, ?_, ?_, ?_, hsingle⟩
      · intro j hj1 hj2
        rw [hres] at hj2
        have : j = 1 := by omega
        rw [this]
        exact hr1
      · intro _
        rw [hres]
        by_cases hok : isOkStatus (resp 2).status = true
        · exact ok_not_retryable _ hok
        · simp only [Bool.not_eq_true] at hok
          by_contra hr
          simp only [Bool.not_eq_false] at hr
          rw [(attemptOutcome_none_iff (resp 2) false).mpr ⟨hok, hr, rfl⟩] at h2
          simp at h2
      · intro hok
        rw [hres] at hok ⊢
        have := attemptOutcome_notOk (resp 2) false e2 hok h2
        simp [this]
      · intro v hok hj
        rw [hres] at hok hj ⊢
        have := attemptOutcome_ok (resp 2) false hok
        rw [h2, hj] at this
        simpa using (Option.some_inj.mp this)
      · intro hok hj
        rw [hres] at hok hj ⊢
        have := attemptOutcome_ok (resp 2) false hok
        rw [h2, hj] at this
        simpa using (Option.some_inj.mp this)
      · intro hall
        have hr2 := hall 2 (by omega) (by omega)
        have hok2 := retryable_not_ok _ hr2
        rw [(attemptOutcome_none_iff (resp 2) false).mpr ⟨hok2, hr2, rfl⟩] at h2
        simp at h2
    case none =>
      have hr2 := ((attemptOutcome_none_iff (resp 2) false).mp h2).2.1
      rcases h3 : attemptOutcome (resp 3) false with _ | e3
      case some =>
        have hres : fetchJson resp = (e3, 3) := by simp [fetchJson, h1, h2, h3]
        refine ⟨by simp [hres], by simp [hres], ?_, ?_, ?_, ?_, ?_, ?_, hsingle⟩
        · intro j hj1 hj2
          rw [hres] at hj2
          have : j = 1 ∨ j = 2 := by omega
          rcases this with h | h <;> rw [h]
          · exact hr1
          · exact hr2
        · intro _
          rw [hres]
          by_cases hok : isOkStatus (resp 3).status = true
          · exact ok_not_retryable _ hok
          · simp only [Bool.not_eq_true] at hok
            by_contra hr
            simp only [Bool.not_eq_false] at hr
            rw [(attemptOutcome_none_iff (resp 3) false).mpr ⟨hok, hr, rfl⟩] at h3
            simp at h3
        · intro hok
          rw [hres] at hok ⊢
          have := attemptOutcome_notOk (resp 3) false e3 hok h3
          simp [this]
        · intro v hok hj
          rw [hres] at hok hj ⊢
          have := attemptOutcome_ok (resp 3) false hok
          rw [h3, hj] at this
          simpa using (Option.some_inj.mp this)
        · intro hok hj
          rw [hres] at hok hj ⊢
          have := attemptOutcome_ok (resp 3) false hok
          rw [h3, hj] at this
          simpa using (Option.some_inj.mp this)
        · intro hall
          have hr3 := hall 3 (by omega) (by omega)
          have hok3 := retryable_not_ok _ hr3
          rw [(attemptOutcome_none_iff (resp 3) false).mpr ⟨hok3, hr3, rfl⟩] at h3
          simp at h3
      case none =>
        have hr3 := ((attemptOutcome_none_iff (resp 3) false).mp h3).2.1
        rcases h4 : attemptOutcome (resp 4) true with _ | e4
        case none =>
          rw [attemptOutcome_none_iff] at h4
          simp at h4
        case some =>
          have hres : fetchJson resp = (e4, 4) := by
            simp [fetchJson, h1, h2, h3, h4]
          refine ⟨by simp [hres], by simp [hres], ?_, ?_, ?_, ?_, ?_, ?_, hsingle⟩
          · intro j hj1 hj2
            rw [hres] at hj2
            have : j = 1 ∨ j = 2 ∨ j = 3 := by omega
            rcases this with h | h | h <;> rw [h]
            · exact hr1
            · exact hr2
            · exact hr3
          · intro hlt
            rw [hres] at hlt
            omega
          · intro hok
            rw [hres] at hok ⊢
            have := attemptOutcome_notOk (resp 4) true e4 hok h4
            simp [this]
          · intro v hok hj
            rw [hres] at hok hj ⊢
            have := attemptOutcome_ok (resp 4) true hok
            rw [h4, hj] at this
            simpa using (Option.some_inj.mp this)
          · intro hok hj
            rw [hres] at hok hj ⊢
            have := attemptOutcome_ok (resp 4) true hok
            rw [h4, hj] at this
            simpa using (Option.some_inj.mp this)
          · intro hall
            have hr4 := hall 4 (by omega) (by omega)
            have hok4 := retryable_not_ok _ hr4
            have := attemptOutcome_notOk (resp 4) true e4 hok4 h4
            rw [hres, this]
            exact ⟨rfl, rfl⟩

/-- The response sequence of the witness: a 429 on attempt 1, then an ok
JSON response on attempt 2. -/
def respSeqW : Nat → HttpResp := fun a =>
  if a = 1 then { status := 429, statusText := "Too Many Requests",
                  body := "slow down", json := none }
  else { status := 200, statusText := "OK", body := "7", json := some 7 }

theorem fetchJson_retry_spec_witness :
    1 ≤ (fetchJson respSeqW).2
    ∧ (fetchJson respSeqW).2 ≤ 4
    ∧ (∀ j, 1 ≤ j → j < (fetchJson respSeqW).2 →
        retryableStatus (respSeqW j).status = true)
    ∧ ((fetchJson respSeqW).2 < 4 →
        retryableStatus (respSeqW (fetchJson respSeqW).2).status = false)
    ∧ (isOkStatus (respSeqW (fetchJson respSeqW).2).status = false →
        (fetchJson respSeqW).1
          = Except.error (httpErrMsg (respSeqW (fetchJson respSeqW).2)))
    ∧ (∀ v, isOkStatus (respSeqW (fetchJson respSeqW).2).status = true →
        (respSeqW (fetchJson respSeqW).2).json = some v →
        (fetchJson respSeqW).1 = Except.ok v)
    ∧ (isOkStatus (respSeqW (fetchJson respSeqW).2).status = true →
        (respSeqW (fetchJson respSeqW).2).json = none →
        (fetchJson respSeqW).1
          = Except.error (nonJsonErrMsg (respSeqW (fetchJson respSeqW).2)))
    ∧ ((∀ j, 1 ≤ j → j ≤ 4 → retryableStatus (respSeqW j).status = true) →
        ((fetchJson respSeqW).2 = 4
          ∧ (fetchJson respSeqW).1 = Except.error (httpErrMsg (respSeqW 4))))
    ∧ (∀ resp2 : Nat → HttpResp, (fetchJsonSingle resp2).2 = 1
        ∧ (isOkStatus (resp2 1).status = false →
            (fetchJsonSingle resp2).1 = Except.error (httpErrMsg (resp2 1)))) :=
  fetchJson_retry_spec respSeqW

end Ikrautas

namespace Ikrautas

/-! ## Session pagination loops (`listAllSessionsForStation`,
`fetchAllSessionsForChargePoint`) -/

/-- One page of the sessions listing: the `data` rows (abstracted to
numbers) and `meta.next_cursor`. -/
structure SessPage where
  data : List Nat
  nextCursor : Option String
deriving DecidableEq

/-- The `while (true)` cursor loop of `listAllSessionsForStation` (unnamed
file, lines 128-162) and `fetchAllSessionsForChargePoint`
(`api/ampeco-sessions.js` lines 101-137): fetch the page for the current
cursor, append its rows, and continue until `next_cursor` is absent.
The loop itself has no page or item cap, so the embedding gives it an
explicit iteration budget: `none` means the budget was exhausted with the
loop still running, `some` that the loop broke on a missing cursor. -/
def listAllSessionsFuel (up : Option String → SessPage) :
    Nat → Option String → List Nat → Option (List Nat)
  | 0, _, _ => none
  | fuel + 1, cursor, acc =>
    match (up cursor).nextCursor with
    | none => some (acc ++ (up cursor).data)
    | some c => listAllSessionsFuel up fuel (some c) (acc ++ (up cursor).data)

/-- A misbehaving upstream that answers every request with the same
next cursor. -/
def cursorCycleUpstream : Option String → SessPage :=
  fun _ => { data := [], nextCursor := some "x" }

/-- C9 counterexample: against an upstream that returns the same
`next_cursor` forever, the session pagination loop never terminates —
there is no iteration bound within which it completes, because these
loops carry no page or item cap. -/
theorem sessionLoop_unbounded :
    ¬ ∃ n, (listAllSessionsFuel cursorCycleUpstream n none []).isSome = true := by
  have h : ∀ n cursor acc,
      listAllSessionsFuel cursorCycleUpstream n cursor acc = none := by
    intro n
    induction n with
    | zero => intro cursor acc; rfl
    | succ n ih =>
      intro cursor acc
      simp only [listAllSessionsFuel, cursorCycleUpstream]
      exact ih (some "x") (acc ++ [])
  rintro ⟨n, hn⟩
  rw [h n none []] at hn
  simp at hn

/-- The capped transaction pagination loop (the `while` of the sweep and
plain variants) over an arbitrary upstream, with its `pagesFetched <
maxPages` and `all.length < maxItems` guards.  As in
`listAllSessionsFuel`, `none` marks an exhausted iteration budget. -/
def txPagedLoopFuel (up : String → TxPage) (mp mi : Nat) :
    Nat → Option String → Nat → List TxRec → Option (List TxRec)
  | _, none, _, all => some all
  | 0, some _, pf, all =>
    if pf < mp ∧ all.length < mi then none else some all
  | fuel + 1, some u, pf, all =>
    if pf < mp ∧ all.length < mi then
      txPagedLoopFuel up mp mi fuel (up u).next (pf + 1) (all ++ (up u).rows)
    else some all

theorem txPagedLoopFuel_total (up : String → TxPage) (mp mi : Nat) :
    ∀ (fuel : Nat) (cursor : Option String) (pf : Nat) (all : List TxRec),
    mp ≤ pf + fuel →
    (txPagedLoopFuel up mp mi fuel cursor pf all).isSome = true := by
  intro fuel
  induction fuel with
  | zero =>
    intro cursor pf all hle
    cases cursor with
    | none => rfl
    | some u =>
      have : ¬ (pf < mp ∧ all.length < mi) := fun hx => by omega
      simp [txPagedLoopFuel, this]
  | succ fuel ih =>
    intro cursor pf all hle
    cases cursor with
    | none => rfl
    | some u =>
      by_cases hg : pf < mp ∧ all.length < mi
      · simp only [txPagedLoopFuel, if_pos hg]
        exact ih (up u).next (pf + 1) (all ++ (up u).rows) (by omega)
      · simp [txPagedLoopFuel, hg]

/-- C9 (amended): the transaction pagination loops carry hard
`maxPages`/`maxItems` caps and finish within `maxPages` iterations for
every upstream, however it misbehaves; the session pagination loops have
no such cap and terminate only when the upstream eventually returns no
next cursor. -/
theorem txLoop_bounded_spec (up : String → TxPage) (mp mi : Nat) (u : String) :
    (txPagedLoopFuel up mp mi mp (some u) 0 []).isSome = true :=
  txPagedLoopFuel_total up mp mi mp (some u) 0 [] (by omega)

end Ikrautas
